import Mathlib

/-!
Shallow embedding of the Fellowship chat relay server.

This file embeds the persistence-enabled variant of the Socket.IO chat
relay server (`server.js`, second variant in the repository) and proves
properties of its registration, message routing, backlog flush, read
receipt, typing relay and conversation store logic.

Modelling conventions:

* A JS `Map` is rendered as an insertion-ordered association list.
  `map.get` returns the (unique) entry for a key, `map.set` overwrites an
  existing entry in place or appends a fresh one at the end, `map.delete`
  removes the entry.  On states reachable from the empty maps the keys are
  pairwise distinct, exactly as for a JS `Map`.
* `msg_${Date.now()}_${Math.random().toString(36).substr(2, 9)}` — the
  generated message id — is modelled by a fresh per-process counter
  (`ServerState.nextId`): the id-generation scheme is a black box of time and randomness;
  only the id string itself flows into the claims.
* `new Date().toISOString()` values (`joinedAt`, `readAt`) are modelled as
  abstract clock values supplied by the environment with each event.
* `socket.emit` / `io.to(room).emit` calls are collected into a list of
  symbolic `Output` values in emission order.
* In-place mutation of a stored message object (`storedMessage.delivered
  = true`, `message.read = true`, `msg.delivered = true`) is rendered as a
  functional update of the very list position that aliases the mutated
  object: the freshly pushed last element for delivery, the first
  `find`-match for read receipts.
-/

namespace Fellowship

/-- JS string comparison as used by the default `Array.prototype.sort`
comparator: lexicographic on the sequence of code units. -/
def charListLt : List Char → List Char → Bool
  | [], [] => false
  | [], _ :: _ => true
  | _ :: _, [] => false
  | a :: as, b :: bs =>
    if a.toNat < b.toNat then true
    else if b.toNat < a.toNat then false
    else charListLt as bs

/-- JS `map.get(k)` on a `Map` rendered as an association list. -/
def mapGet [DecidableEq κ] (m : List (κ × α)) (k : κ) : Option α :=
  (m.find? (fun p => decide (p.1 = k))).map (fun p => p.2)

/-- JS `map.set(k, v)`: overwrite the entry in place when the key is present,
append a fresh entry otherwise. -/
def mapSet [DecidableEq κ] (m : List (κ × α)) (k : κ) (v : α) : List (κ × α) :=
  if m.any (fun p => decide (p.1 = k)) then
    m.map (fun p => if p.1 = k then (k, v) else p)
  else
    m ++ [(k, v)]

/-- JS `map.delete(k)`. -/
def mapDelete [DecidableEq κ] (m : List (κ × α)) (k : κ) : List (κ × α) :=
  m.filter (fun p => !(decide (p.1 = k)))

/-- In-place update of the value stored under key `k` (mutating a value
retrieved by `map.get(k)`). -/
def mapModify [DecidableEq κ] (m : List (κ × α)) (k : κ) (f : α → α) : List (κ × α) :=
  m.map (fun p => if p.1 = k then (p.1, f p.2) else p)

/-- A `connectedUsers` entry: `{ socketId, isAuthenticated, joinedAt }`. -/
structure UserInfo where
  socketId : Nat
  isAuthenticated : Bool
  joinedAt : Nat
deriving Repr, DecidableEq

/-- A stored chat message, as built by `storeMessage`. -/
structure Message where
  id : String
  «from» : String
  «to» : String
  message : String
  timestamp : String
  delivered : Bool
  read : Bool
deriving Repr, DecidableEq

/-- The mutable server state: `connectedUsers`, `userSockets`,
`messageStore`, plus the fresh-id counter modelling id generation. -/
structure ServerState where
  connectedUsers : List (String × UserInfo)
  userSockets : List (Nat × String)
  messageStore : List (String × List Message)
  nextId : Nat
deriving Repr, DecidableEq

/-- The state at server start: all maps empty. -/
def initialState : ServerState := ⟨[], [], [], 0⟩

/-- One emitted transport event (`socket.emit` / `io.to(..).emit` /
`io.emit`). -/
inductive Output where
  | privateMessageRoom (room : String) (msg : Message)
  | privateMessageSocket (sid : Nat) (msg : Message)
  | messageSent (sid : Nat) («to» message timestamp status messageId : String)
  | messageError (sid : Nat) («to» message error timestamp : String)
  | messageReadReceipt (sid : Nat) (messageId readBy : String) (readAt : Nat)
  | userTyping (room «from» : String) (typing : Bool)
  | conversationHistory (sid : Nat) (withUser : String) (messages : List Message)
  | usersUpdated (users : List String)
deriving Repr, DecidableEq

/-- Whether an output is the `users_updated` presence broadcast. -/
def Output.isUsersUpdated : Output → Bool
  | .usersUpdated _ => true
  | _ => false

/-- Embeds `getConversationId(user1, user2)`: `[user1, user2].sort().join('_')`.
The JS default sort on a two-element string array swaps the elements
exactly when the second compares below the first by code units. -/
def getConversationId (user1 user2 : String) : String :=
  if charListLt user2.data user1.data then user2 ++ "_" ++ user1
  else user1 ++ "_" ++ user2

/-- The generated message id (see the id-generation convention above). -/
def mkMessageId (n : Nat) : String := "msg_" ++ toString n

/-- Embeds `storeMessage(from, to, message, timestamp)`: ensure the conversation
bucket exists, push a fresh record with `delivered=false, read=false`,
and return it. -/
def storeMessage (st : ServerState) («from» «to» message timestamp : String) :
    ServerState × Message :=
  let conversationId := getConversationId «from» «to»
  let store0 :=
    if (mapGet st.messageStore conversationId).isSome then st.messageStore
    else mapSet st.messageStore conversationId []
  let messageData : Message :=
    { id := mkMessageId st.nextId, «from» := «from», «to» := «to»,
      message := message, timestamp := timestamp,
      delivered := false, read := false }
  ({ st with
      messageStore := mapSet store0 conversationId
        (((mapGet store0 conversationId).getD []) ++ [messageData]),
      nextId := st.nextId + 1 },
   messageData)

/-- Embeds `getConversationMessages(user1, user2)`:
`messageStore.get(getConversationId(user1, user2)) || []`. -/
def getConversationMessages (st : ServerState) (user1 user2 : String) : List Message :=
  (mapGet st.messageStore (getConversationId user1 user2)).getD []

/-- Renders `storedMessage.delivered = true` for the record just pushed by
`storeMessage`, i.e. the last element of its bucket. -/
def setLastDelivered : List Message → List Message
  | [] => []
  | [m] => [{ m with delivered := true }]
  | m :: m2 :: ms => m :: setLastDelivered (m2 :: ms)

/-- Renders `message.read = true` for the object found by
`messages.find(msg => msg.id === messageId)`: the first match. -/
def markReadFirst : List Message → String → List Message
  | [], _ => []
  | m :: ms, messageId =>
    if m.id = messageId then { m with read := true } :: ms
    else m :: markReadFirst ms messageId

/-- Embeds `socket.on('user_join')` of the persisting variant: record the user in
both registry maps, join the private room, then run
`deliverPendingMessages(username)` — scan every conversation bucket for
messages addressed to the user with `delivered === false`, emit each to
the joining socket and flip its `delivered` flag.  (This variant sends no
`users_updated` broadcast.) -/
def handleUserJoin (st : ServerState) (sid : Nat) (username : String)
    (isAuthenticated : Bool) (joinedAt : Nat) : ServerState × List Output :=
  let st1 : ServerState :=
    { st with
        connectedUsers := mapSet st.connectedUsers username ⟨sid, isAuthenticated, joinedAt⟩,
        userSockets := mapSet st.userSockets sid username }
  (({ st1 with
      messageStore := st1.messageStore.map (fun p =>
        (p.1, p.2.map (fun m =>
          if m.«to» = username ∧ m.delivered = false then { m with delivered := true }
          else m))) }),
   (st1.messageStore.map (fun p =>
      (p.2.filter (fun m => decide (m.«to» = username ∧ m.delivered = false))).map
        (Output.privateMessageSocket sid))).flatten)

/-- Embeds `socket.on('private_message')` of the persisting variant: always store
first, then deliver to the recipient's private room and acknowledge
`delivered` when the recipient is registered, otherwise acknowledge
`stored`.  No `message_error` is ever emitted in this variant. -/
def handlePrivateMessage (st : ServerState) (sid : Nat)
    («to» «from» message timestamp : String) : ServerState × List Output :=
  let r := storeMessage st «from» «to» message timestamp
  match mapGet st.connectedUsers «to» with
  | some _ =>
    ({ r.1 with
        messageStore :=
          mapModify r.1.messageStore (getConversationId «from» «to») setLastDelivered },
     [Output.privateMessageRoom ("user_" ++ «to») r.2,
      Output.messageSent sid «to» message timestamp "delivered" r.2.id])
  | none =>
    (r.1, [Output.messageSent sid «to» message timestamp "stored" r.2.id])

/-- Embeds `socket.on('message_read')`: look the bucket up, find the message by
id, flip `read` and notify the original sender if online; silently do
nothing when the bucket or the message is unknown.  The handler never
consults the calling socket (`sid`). -/
def handleMessageRead (st : ServerState) (sid : Nat)
    (messageId conversationId : String) (now : Nat) : ServerState × List Output :=
  match mapGet st.messageStore conversationId with
  | none => (st, [])
  | some messages =>
    match messages.find? (fun m => decide (m.id = messageId)) with
    | none => (st, [])
    | some message =>
      let st1 : ServerState :=
        { st with messageStore :=
            mapModify st.messageStore conversationId (fun ms => markReadFirst ms messageId) }
      match mapGet st.connectedUsers message.«from» with
      | some sender =>
        (st1, [Output.messageReadReceipt sender.socketId messageId message.«to» now])
      | none => (st1, [])

/-- Embeds `socket.on('typing_start')`: relay to the recipient's private room if
they are registered, drop otherwise; no state is touched. -/
def handleTypingStart (st : ServerState) («to» «from» : String) :
    ServerState × List Output :=
  match mapGet st.connectedUsers «to» with
  | some _ => (st, [Output.userTyping ("user_" ++ «to») «from» true])
  | none => (st, [])

/-- Embeds `socket.on('typing_stop')`: as `typing_start` with `typing: false`. -/
def handleTypingStop (st : ServerState) («to» «from» : String) :
    ServerState × List Output :=
  match mapGet st.connectedUsers «to» with
  | some _ => (st, [Output.userTyping ("user_" ++ «to») «from» false])
  | none => (st, [])

/-- Embeds `socket.on('get_conversation')`: resolve the caller's username via the
reverse map; if registered, emit the conversation history. -/
def handleGetConversation (st : ServerState) (sid : Nat) (withUser : String) :
    ServerState × List Output :=
  match mapGet st.userSockets sid with
  | some username =>
    (st, [Output.conversationHistory sid withUser (getConversationMessages st username withUser)])
  | none => (st, [])

/-- Embeds `socket.on('disconnect')` of the persisting variant: resolve the
username via the reverse map and delete both registry entries; no
broadcast is sent. -/
def handleDisconnect (st : ServerState) (sid : Nat) : ServerState × List Output :=
  match mapGet st.userSockets sid with
  | some username =>
    ({ st with
        connectedUsers := mapDelete st.connectedUsers username,
        userSockets := mapDelete st.userSockets sid }, [])
  | none => (st, [])

/-- One inbound transport event, tagged with the emitting socket where the
corresponding handler can observe it. -/
inductive Event where
  | userJoin (sid : Nat) (username : String) (isAuthenticated : Bool) (joinedAt : Nat)
  | privateMessage (sid : Nat) («to» «from» message timestamp : String)
  | messageRead (sid : Nat) (messageId conversationId : String) (now : Nat)
  | typingStart («to» «from» : String)
  | typingStop («to» «from» : String)
  | getConversation (sid : Nat) (withUser : String)
  | disconnect (sid : Nat)
deriving Repr, DecidableEq

/-- Dispatch one inbound event to its handler. -/
def step (st : ServerState) : Event → ServerState × List Output
  | .userJoin sid u auth t => handleUserJoin st sid u auth t
  | .privateMessage sid t1 f1 msg ts => handlePrivateMessage st sid t1 f1 msg ts
  | .messageRead sid mid cid now => handleMessageRead st sid mid cid now
  | .typingStart t1 f1 => handleTypingStart st t1 f1
  | .typingStop t1 f1 => handleTypingStop st t1 f1
  | .getConversation sid w => handleGetConversation st sid w
  | .disconnect sid => handleDisconnect st sid

/-- Run a sequence of events, keeping the final state. -/
def runState (st : ServerState) (es : List Event) : ServerState :=
  es.foldl (fun s e => (step s e).1) st

/-- The send requests addressed to the conversation bucket of the pair
`(A, B)`, in arrival order, projected to `(from, to, message, timestamp)`.
This is the spec-side notion of "the order append was called" for that
pair. -/
def sendsFor (A B : String) : List Event → List (String × String × String × String)
  | [] => []
  | .privateMessage _ t1 f1 msg ts :: es =>
    if getConversationId f1 t1 = getConversationId A B then
      (f1, t1, msg, ts) :: sendsFor A B es
    else sendsFor A B es
  | _ :: es => sendsFor A B es

/-- The delivery-independent content of a stored message. -/
def sendView (m : Message) : String × String × String × String :=
  (m.«from», m.«to», m.message, m.timestamp)

/-- A small concrete state: `"a"` registered on socket 0, and one stored
message `msg_0` from `"a"` to `"b"` in bucket `"a_b"`. -/
def readState : ServerState :=
  ⟨[("a", ⟨0, false, 0⟩)], [(0, "a")],
   [("a_b", [⟨"msg_0", "a", "b", "hi", "t1", false, false⟩])], 1⟩

/-! ## Association-list map lemmas -/

theorem mapGet_mapSet_self [DecidableEq κ] (m : List (κ × α)) (k : κ) (v : α) :
    mapGet (mapSet m k v) k = some v := by
  unfold mapSet
  by_cases h : m.any (fun p => decide (p.1 = k)) = true
  · simp only [h, if_true]
    rw [mapGet, List.find?_map]
    have hpred : ((fun p : κ × α => decide (p.1 = k)) ∘
        (fun p => if p.1 = k then (k, v) else p)) = (fun p : κ × α => decide (p.1 = k)) := by
      funext p
      by_cases hp : p.1 = k <;> simp [hp]
    rw [hpred]
    obtain ⟨x, hx, hxk⟩ := List.any_eq_true.mp h
    have hsome : (m.find? (fun p => decide (p.1 = k))).isSome = true :=
      List.find?_isSome.mpr ⟨x, hx, hxk⟩
    obtain ⟨p0, hp0⟩ := Option.isSome_iff_exists.mp hsome
    have hk0 := List.find?_some hp0
    simp only [decide_eq_true_eq] at hk0
    rw [hp0]
    simp [hk0]
  · rw [if_neg h]
    rw [mapGet, List.find?_append]
    have hnone : m.find? (fun p => decide (p.1 = k)) = none := by
      rw [List.find?_eq_none]
      intro x hx hxk
      exact h (List.any_eq_true.mpr ⟨x, hx, hxk⟩)
    simp [hnone]

theorem mapGet_mapSet_ne [DecidableEq κ] (m : List (κ × α)) {k k' : κ} (v : α)
    (h : k' ≠ k) : mapGet (mapSet m k v) k' = mapGet m k' := by
  unfold mapSet
  by_cases hany : m.any (fun p => decide (p.1 = k)) = true
  · simp only [hany, if_true]
    rw [mapGet, List.find?_map, mapGet]
    have hpred : ((fun p : κ × α => decide (p.1 = k')) ∘
        (fun p => if p.1 = k then (k, v) else p)) = (fun p : κ × α => decide (p.1 = k')) := by
      funext p
      by_cases hp : p.1 = k <;> simp [hp]
    rw [hpred]
    cases hfind : m.find? (fun p : κ × α => decide (p.1 = k')) with
    | none => simp
    | some p0 =>
      have hk' := List.find?_some hfind
      simp only [decide_eq_true_eq] at hk'
      have hp0k : ¬ p0.1 = k := by
        rw [hk']
        exact h
      simp [hp0k]
  · rw [if_neg hany]
    rw [mapGet, List.find?_append, mapGet]
    have hone : List.find? (fun p : κ × α => decide (p.1 = k')) [(k, v)] = none := by
      simp [Ne.symm h]
    simp [hone]

theorem mapGet_mapModify_self [DecidableEq κ] (m : List (κ × α)) (k : κ) (f : α → α) :
    mapGet (mapModify m k f) k = (mapGet m k).map f := by
  rw [mapModify, mapGet, List.find?_map, mapGet]
  have hpred : ((fun p : κ × α => decide (p.1 = k)) ∘
      (fun p => if p.1 = k then (p.1, f p.2) else p)) = (fun p : κ × α => decide (p.1 = k)) := by
    funext p
    by_cases hp : p.1 = k <;> simp [hp]
  rw [hpred]
  cases hfind : m.find? (fun p : κ × α => decide (p.1 = k)) with
  | none => simp
  | some p0 =>
    have hk := List.find?_some hfind
    simp only [decide_eq_true_eq] at hk
    simp [hk]

theorem mapGet_mapModify_ne [DecidableEq κ] (m : List (κ × α)) {k k' : κ} (f : α → α)
    (h : k' ≠ k) : mapGet (mapModify m k f) k' = mapGet m k' := by
  rw [mapModify, mapGet, List.find?_map, mapGet]
  have hpred : ((fun p : κ × α => decide (p.1 = k')) ∘
      (fun p => if p.1 = k then (p.1, f p.2) else p)) = (fun p : κ × α => decide (p.1 = k')) := by
    funext p
    by_cases hp : p.1 = k <;> simp [hp]
  rw [hpred]
  cases hfind : m.find? (fun p : κ × α => decide (p.1 = k')) with
  | none => simp
  | some p0 =>
    have hk' := List.find?_some hfind
    simp only [decide_eq_true_eq] at hk'
    have hp0k : ¬ p0.1 = k := by
      rw [hk']
      exact h
    simp [hp0k]

theorem mapGet_mapValues [DecidableEq κ] (m : List (κ × α)) (g : α → α) (k : κ) :
    mapGet (m.map (fun p => (p.1, g p.2))) k = (mapGet m k).map g := by
  rw [mapGet, List.find?_map, mapGet]
  have hpred : ((fun p : κ × α => decide (p.1 = k)) ∘
      (fun p => (p.1, g p.2))) = (fun p : κ × α => decide (p.1 = k)) := by
    funext p
    simp
  rw [hpred]
  cases m.find? (fun p : κ × α => decide (p.1 = k)) <;> simp

theorem mapSet_keys [DecidableEq κ] (m : List (κ × α)) (k : κ) (v : α) :
    (mapSet m k v).map Prod.fst =
      if m.any (fun p => decide (p.1 = k)) then m.map Prod.fst
      else m.map Prod.fst ++ [k] := by
  unfold mapSet
  by_cases h : m.any (fun p => decide (p.1 = k)) = true
  · simp only [h, if_true, List.map_map]
    apply List.map_congr_left
    intro p _
    by_cases hp : p.1 = k <;> simp [hp, Function.comp]
  · simp [h]

theorem nodupKeys_mapSet [DecidableEq κ] {m : List (κ × α)}
    (h : (m.map Prod.fst).Nodup) (k : κ) (v : α) :
    ((mapSet m k v).map Prod.fst).Nodup := by
  rw [mapSet_keys]
  by_cases hany : m.any (fun p => decide (p.1 = k)) = true
  · simpa [hany] using h
  · have hk : k ∉ m.map Prod.fst := by
      intro hmem
      obtain ⟨p, hp, hpk⟩ := List.mem_map.mp hmem
      exact hany (List.any_eq_true.mpr ⟨p, hp, by simp [hpk]⟩)
    rw [if_neg hany]
    rw [List.nodup_append]
    refine ⟨h, List.nodup_singleton k, ?_⟩
    intro x hx hx1
    rw [List.mem_singleton.mp hx1] at hx
    exact hk hx

theorem nodupKeys_mapDelete [DecidableEq κ] {m : List (κ × α)}
    (h : (m.map Prod.fst).Nodup) (k : κ) :
    ((mapDelete m k).map Prod.fst).Nodup := by
  exact List.Nodup.sublist (List.Sublist.map Prod.fst (List.filter_sublist m)) h

/-! ## The JS string comparator -/

theorem charListLt_asymm :
    ∀ {as bs : List Char}, charListLt as bs = true → charListLt bs as = false
  | [], [], h => by simp [charListLt] at h
  | [], _ :: _, _ => by simp [charListLt]
  | _ :: _, [], h => by simp [charListLt] at h
  | a :: as, b :: bs, h => by
    rw [charListLt] at h ⊢
    by_cases h1 : a.toNat < b.toNat
    · have h2 : ¬ b.toNat < a.toNat := Nat.lt_asymm h1
      simp [h1, h2]
    · by_cases h2 : b.toNat < a.toNat
      · rw [if_neg h1, if_pos h2] at h
        exact absurd h (by simp)
      · rw [if_neg h1, if_neg h2] at h
        rw [if_neg h2, if_neg h1]
        exact charListLt_asymm h

theorem charListLt_eq_of_not :
    ∀ {as bs : List Char}, charListLt as bs = false → charListLt bs as = false → as = bs
  | [], [], _, _ => rfl
  | [], _ :: _, h, _ => by simp [charListLt] at h
  | _ :: _, [], _, h => by simp [charListLt] at h
  | a :: as, b :: bs, h, h' => by
    rw [charListLt] at h h'
    by_cases h1 : a.toNat < b.toNat
    · rw [if_pos h1] at h
      exact absurd h (by simp)
    · by_cases h2 : b.toNat < a.toNat
      · rw [if_pos h2] at h'
        exact absurd h' (by simp)
      · rw [if_neg h1, if_neg h2] at h
        rw [if_neg h2, if_neg h1] at h'
        have hab : a = b :=
          Char.ext (UInt32.toNat.inj (Nat.le_antisymm (Nat.ge_of_not_lt h2) (Nat.ge_of_not_lt h1)))
        rw [hab, charListLt_eq_of_not h h']

theorem string_data_inj {a b : String} (h : a.data = b.data) : a = b :=
  congrArg String.mk h

theorem charListLt_irrefl (as : List Char) : charListLt as as = false := by
  cases h : charListLt as as with
  | false => rfl
  | true =>
    have hasymm := charListLt_asymm h
    rw [h] at hasymm
    exact absurd hasymm (by simp)

/-! ## Claim theorems -/

/-- C8: `getConversationId` is a deterministic function of the unordered
pair: it is symmetric in its two arguments, and it joins the two usernames
with the lexicographically (code-unit) smaller one first, so both send
directions address a single conversation bucket. -/
theorem C8_conversation_key_unordered (A B : String) :
    getConversationId A B = getConversationId B A ∧
    (charListLt A.data B.data = true → getConversationId A B = A ++ "_" ++ B) ∧
    (charListLt B.data A.data = true → getConversationId A B = B ++ "_" ++ A) ∧
    (A = B → getConversationId A B = A ++ "_" ++ B) := by
  refine ⟨?_, ?_, ?_, ?_⟩
  · unfold getConversationId
    by_cases h1 : charListLt B.data A.data = true
    · rw [if_pos h1, if_neg (by simp [charListLt_asymm h1])]
    · by_cases h2 : charListLt A.data B.data = true
      · rw [if_neg h1, if_pos h2]
      · have h1' : charListLt B.data A.data = false := by
          revert h1
          cases charListLt B.data A.data <;> simp
        have h2' : charListLt A.data B.data = false := by
          revert h2
          cases charListLt A.data B.data <;> simp
        have hAB : A = B := string_data_inj (charListLt_eq_of_not h2' h1')
        subst hAB
        rfl
  · intro h
    unfold getConversationId
    rw [if_neg (by simp [charListLt_asymm h])]
  · intro h
    unfold getConversationId
    rw [if_pos h]
  · intro h
    subst h
    unfold getConversationId
    rw [if_neg (by simp [charListLt_irrefl])]

/-- Witness for C8 at the concrete pair `("alice", "bob")`. -/
theorem C8_conversation_key_unordered_witness :
    charListLt "alice".data "bob".data = true ∧
    getConversationId "alice" "bob" = getConversationId "bob" "alice" ∧
    getConversationId "alice" "bob" = "alice" ++ "_" ++ "bob" := by
  have h := C8_conversation_key_unordered "alice" "bob"
  exact ⟨by decide, h.1, h.2.1 (by decide)⟩

/-- C9: the conversation key is not injective over distinct unordered
pairs: the distinct pairs `("a", "b_c")` and `("a_b", "c")` share the key
`"a_b_c"`, and a message stored for the first pair shows up in the second
pair's history. -/
theorem C9_conversation_key_collision :
    getConversationId "a" "b_c" = "a_b_c" ∧
    getConversationId "a_b" "c" = "a_b_c" ∧
    ("a" : String) ≠ "a_b" ∧ ("a" : String) ≠ "c" ∧
    ("b_c" : String) ≠ "a_b" ∧ ("b_c" : String) ≠ "c" ∧
    getConversationMessages (storeMessage initialState "a" "b_c" "hi" "t0").1 "a_b" "c" =
      [(storeMessage initialState "a" "b_c" "hi" "t0").2] ∧
    (storeMessage initialState "a" "b_c" "hi" "t0").2.«from» = "a" ∧
    (storeMessage initialState "a" "b_c" "hi" "t0").2.«to» = "b_c" := by
  decide

/-- C7: typing signals are a pure pass-through: when the recipient is
registered, exactly one `user_typing` event (with `typing` true for start,
false for stop) goes to the recipient's private room; when not, the signal
is silently dropped; in every case the server state is left unchanged. -/
theorem C7_typing_passthrough (st : ServerState) («to» «from» : String) :
    handleTypingStart st «to» «from» =
      (st, if (mapGet st.connectedUsers «to»).isSome then
        [Output.userTyping ("user_" ++ «to») «from» true] else []) ∧
    handleTypingStop st «to» «from» =
      (st, if (mapGet st.connectedUsers «to»).isSome then
        [Output.userTyping ("user_" ++ «to») «from» false] else []) := by
  unfold handleTypingStart handleTypingStop
  cases mapGet st.connectedUsers «to» <;> simp

/-- C3 (evaluation): the persisting variant never emits a `users_updated`
presence snapshot — for every state and every inbound event the handler
outputs contain no such broadcast; in particular a fresh `user_join` and
its later `disconnect` emit none. -/
theorem C3_no_presence_broadcast :
    (∀ (st : ServerState) (e : Event),
      ((step st e).2.all (fun o => !o.isUsersUpdated)) = true) ∧
    (handleUserJoin initialState 0 "alice" true 0).2 = [] ∧
    (handleDisconnect (handleUserJoin initialState 0 "alice" true 0).1 0).2 = [] := by
  refine ⟨?_, by decide, by decide⟩
  intro st e
  cases e with
  | userJoin sid u auth t =>
    simp only [step, handleUserJoin]
    rw [List.all_eq_true]
    intro o ho
    rw [List.mem_flatten] at ho
    obtain ⟨l, hl, hol⟩ := ho
    obtain ⟨p, _, rfl⟩ := List.mem_map.mp hl
    obtain ⟨m, _, rfl⟩ := List.mem_map.mp hol
    rfl
  | privateMessage sid t1 f1 msg ts =>
    simp only [step, handlePrivateMessage]
    cases hx : mapGet st.connectedUsers t1 <;>
      simp [Output.isUsersUpdated]
  | messageRead sid mid cid now =>
    simp only [step, handleMessageRead]
    cases hx : mapGet st.messageStore cid
    · simp
    · cases hf : (‹List Message›).find? (fun m => decide (m.id = mid))
      · simp [hf]
      · cases hs : mapGet st.connectedUsers (‹Message›).«from» <;>
          simp [hf, hs, Output.isUsersUpdated]
  | typingStart t1 f1 =>
    simp only [step, handleTypingStart]
    cases hx : mapGet st.connectedUsers t1 <;>
      simp [Output.isUsersUpdated]
  | typingStop t1 f1 =>
    simp only [step, handleTypingStop]
    cases hx : mapGet st.connectedUsers t1 <;>
      simp [Output.isUsersUpdated]
  | getConversation sid w =>
    simp only [step, handleGetConversation]
    cases hx : mapGet st.userSockets sid <;>
      simp [Output.isUsersUpdated]
  | disconnect sid =>
    simp only [step, handleDisconnect]
    cases hx : mapGet st.userSockets sid <;> simp

/-- C4 (counterexample): after socket 0 joins as `"u"` and then socket 1
joins as `"u"`, the reverse map holds two entries for `"u"` — the entry
for socket 0 is stale (the forward map points at socket 1) — and a
subsequent disconnect of the stale socket 0 deletes the forward-map
registration of the still-connected socket 1, leaving the reverse entry
`(1, "u")` dangling.  So "no duplicate or stale entries in either map" is
false. -/
theorem C4_registry_counterexample :
    (handleUserJoin (handleUserJoin initialState 0 "u" false 0).1 1 "u" false 1).1.userSockets
      = [(0, "u"), (1, "u")] ∧
    mapGet (handleUserJoin (handleUserJoin initialState 0 "u" false 0).1
        1 "u" false 1).1.connectedUsers "u" = some ⟨1, false, 1⟩ ∧
    (handleDisconnect (handleUserJoin (handleUserJoin initialState 0 "u" false 0).1
        1 "u" false 1).1 0).1.connectedUsers = [] ∧
    (handleDisconnect (handleUserJoin (handleUserJoin initialState 0 "u" false 0).1
        1 "u" false 1).1 0).1.userSockets = [(1, "u")] := by
  decide

/-- Every handler keeps the keys of both registry maps pairwise
distinct. -/
theorem step_preserves_nodup (st : ServerState) (e : Event)
    (h1 : (st.connectedUsers.map Prod.fst).Nodup)
    (h2 : (st.userSockets.map Prod.fst).Nodup) :
    (((step st e).1.connectedUsers.map Prod.fst).Nodup ∧
     ((step st e).1.userSockets.map Prod.fst).Nodup) := by
  cases e with
  | userJoin sid u auth t =>
    exact ⟨nodupKeys_mapSet h1 u ⟨sid, auth, t⟩, nodupKeys_mapSet h2 sid u⟩
  | privateMessage sid t1 f1 msg ts =>
    simp only [step, handlePrivateMessage]
    cases hx : mapGet st.connectedUsers t1 <;> exact ⟨h1, h2⟩
  | messageRead sid mid cid now =>
    simp only [step, handleMessageRead]
    cases hx : mapGet st.messageStore cid
    · exact ⟨h1, h2⟩
    · cases hf : (‹List Message›).find? (fun m => decide (m.id = mid))
      · simp only [hf]
        exact ⟨h1, h2⟩
      · cases hs : mapGet st.connectedUsers (‹Message›).«from» <;>
          simp only [hf, hs] <;> exact ⟨h1, h2⟩
  | typingStart t1 f1 =>
    simp only [step, handleTypingStart]
    cases hx : mapGet st.connectedUsers t1 <;> exact ⟨h1, h2⟩
  | typingStop t1 f1 =>
    simp only [step, handleTypingStop]
    cases hx : mapGet st.connectedUsers t1 <;> exact ⟨h1, h2⟩
  | getConversation sid w =>
    simp only [step, handleGetConversation]
    cases hx : mapGet st.userSockets sid <;> exact ⟨h1, h2⟩
  | disconnect sid =>
    simp only [step, handleDisconnect]
    cases hx : mapGet st.userSockets sid
    · exact ⟨h1, h2⟩
    · exact ⟨nodupKeys_mapDelete h1 _, nodupKeys_mapDelete h2 sid⟩

/-- Both registry maps keep pairwise-distinct keys along any run. -/
theorem runState_nodup :
    ∀ (es : List Event) (st : ServerState),
      (st.connectedUsers.map Prod.fst).Nodup →
      (st.userSockets.map Prod.fst).Nodup →
      (((runState st es).connectedUsers.map Prod.fst).Nodup ∧
       ((runState st es).userSockets.map Prod.fst).Nodup)
  | [], _, h1, h2 => ⟨h1, h2⟩
  | e :: es, st, h1, h2 => by
    rw [runState, List.foldl_cons]
    exact runState_nodup es (step st e).1
      (step_preserves_nodup st e h1 h2).1 (step_preserves_nodup st e h1 h2).2

/-- C4 (amended): along every event sequence the forward map binds each
username at most once and the reverse map binds each connection at most
once (no duplicate entries), and a `user_join` always overwrites the
forward-map entry for its username with the joining connection
(last-connect-wins). -/
theorem C4_registry_last_connect_wins (es : List Event) :
    (((runState initialState es).connectedUsers.map Prod.fst).Nodup ∧
     ((runState initialState es).userSockets.map Prod.fst).Nodup) ∧
    ∀ (sid : Nat) (u : String) (auth : Bool) (t : Nat),
      mapGet (handleUserJoin (runState initialState es) sid u auth t).1.connectedUsers u =
        some ⟨sid, auth, t⟩ := by
  refine ⟨runState_nodup es initialState (by simp [initialState]) (by simp [initialState]), ?_⟩
  intro sid u auth t
  exact mapGet_mapSet_self _ u (⟨sid, auth, t⟩ : UserInfo)

/-! ## Conversation-store lemmas -/

/-- The helper `storeMessage` leaves both registry maps untouched. -/
theorem storeMessage_registry (st : ServerState) (f t msg ts : String) :
    (storeMessage st f t msg ts).1.connectedUsers = st.connectedUsers ∧
    (storeMessage st f t msg ts).1.userSockets = st.userSockets :=
  ⟨rfl, rfl⟩

/-- The record returned by `storeMessage`. -/
theorem storeMessage_snd (st : ServerState) (f t msg ts : String) :
    (storeMessage st f t msg ts).2 =
      ⟨mkMessageId st.nextId, f, t, msg, ts, false, false⟩ :=
  rfl

/-- After `storeMessage`, the bucket of its conversation key holds the old
bucket with the new record appended. -/
theorem storeMessage_bucket_get (st : ServerState) (f t msg ts : String) :
    mapGet (storeMessage st f t msg ts).1.messageStore (getConversationId f t) =
      some (getConversationMessages st f t ++ [(storeMessage st f t msg ts).2]) := by
  simp only [storeMessage, getConversationMessages]
  by_cases h : (mapGet st.messageStore (getConversationId f t)).isSome
  · rw [if_pos h, mapGet_mapSet_self]
  · rw [if_neg h, mapGet_mapSet_self]
    have hnone : mapGet st.messageStore (getConversationId f t) = none :=
      Option.not_isSome_iff_eq_none.mp h
    rw [hnone, mapGet_mapSet_self]
    simp

/-- After `storeMessage`, its conversation's history is the old history
with the new record appended. -/
theorem storeMessage_bucket (st : ServerState) (f t msg ts : String) :
    getConversationMessages (storeMessage st f t msg ts).1 f t =
      getConversationMessages st f t ++ [(storeMessage st f t msg ts).2] := by
  rw [getConversationMessages, storeMessage_bucket_get]
  rfl

/-- The helper `storeMessage` does not touch any other conversation bucket. -/
theorem storeMessage_bucket_ne (st : ServerState) (f t msg ts : String) (k : String)
    (hne : k ≠ getConversationId f t) :
    mapGet (storeMessage st f t msg ts).1.messageStore k = mapGet st.messageStore k := by
  simp only [storeMessage]
  by_cases h : (mapGet st.messageStore (getConversationId f t)).isSome
  · rw [if_pos h, mapGet_mapSet_ne _ _ hne]
  · rw [if_neg h, mapGet_mapSet_ne _ _ hne, mapGet_mapSet_ne _ _ hne]

/-- Flipping the `delivered` flag of the last element of `ms ++ [m]`. -/
theorem setLastDelivered_append (ms : List Message) (m : Message) :
    setLastDelivered (ms ++ [m]) = ms ++ [{ m with delivered := true }] := by
  induction ms with
  | nil => rfl
  | cons a ms ih =>
    cases ms with
    | nil => rfl
    | cons b ms' =>
      show a :: setLastDelivered ((b :: ms') ++ [m]) = _
      rw [ih]
      rfl

/-- C2: when the recipient is registered, the router emits exactly one
`private_message` event carrying the stored record to the recipient's
private room, acknowledges the sender with `status: 'delivered'` echoing
`to`, `message`, `timestamp` and the generated id, and the stored record's
`delivered` flag is true afterwards. -/
theorem C2_online_delivery (st : ServerState) (sid : Nat) («to» «from» msg ts : String)
    (info : UserInfo) (hon : mapGet st.connectedUsers «to» = some info) :
    ∃ stored : Message,
      stored.«from» = «from» ∧ stored.«to» = «to» ∧ stored.message = msg ∧
      stored.timestamp = ts ∧
      (handlePrivateMessage st sid «to» «from» msg ts).2 =
        [Output.privateMessageRoom ("user_" ++ «to») stored,
         Output.messageSent sid «to» msg ts "delivered" stored.id] ∧
      getConversationMessages (handlePrivateMessage st sid «to» «from» msg ts).1 «from» «to» =
        getConversationMessages st «from» «to» ++ [{ stored with delivered := true }] := by
  refine ⟨(storeMessage st «from» «to» msg ts).2, rfl, rfl, rfl, rfl, ?_, ?_⟩
  · simp only [handlePrivateMessage, hon]
  · simp only [handlePrivateMessage, hon]
    rw [getConversationMessages]
    show (mapGet (mapModify _ _ _) _).getD [] = _
    rw [mapGet_mapModify_self, storeMessage_bucket_get]
    simp [setLastDelivered_append]

/-- Witness for C2: `"bob"` is online (socket 1), `"alice"` sends from
socket 0. -/
theorem C2_online_delivery_witness :
    mapGet (handleUserJoin initialState 1 "bob" false 0).1.connectedUsers "bob" =
      some ⟨1, false, 0⟩ ∧
    ∃ stored : Message,
      stored.«from» = "alice" ∧ stored.«to» = "bob" ∧ stored.message = "hi" ∧
      stored.timestamp = "t1" ∧
      (handlePrivateMessage (handleUserJoin initialState 1 "bob" false 0).1
          0 "bob" "alice" "hi" "t1").2 =
        [Output.privateMessageRoom ("user_" ++ "bob") stored,
         Output.messageSent 0 "bob" "hi" "t1" "delivered" stored.id] ∧
      getConversationMessages (handlePrivateMessage (handleUserJoin initialState 1 "bob" false 0).1
          0 "bob" "alice" "hi" "t1").1 "alice" "bob" =
        getConversationMessages (handleUserJoin initialState 1 "bob" false 0).1 "alice" "bob" ++
          [{ stored with delivered := true }] :=
  ⟨by decide,
   C2_online_delivery (handleUserJoin initialState 1 "bob" false 0).1
     0 "bob" "alice" "hi" "t1" ⟨1, false, 0⟩ (by decide)⟩

/-- C1: a send to an unregistered recipient appends the message with
`delivered=false`, acknowledges the sender with `status: 'stored'` (and
nothing else — in particular no delivery error), and any later `user_join`
of that recipient flushes, per conversation bucket in insertion order,
exactly the undelivered messages addressed to them, flipping each
`delivered` flag so that no pending message for them remains. -/
theorem C1_offline_store_then_flush (st : ServerState) (sid : Nat)
    («to» «from» msg ts : String)
    (hoff : mapGet st.connectedUsers «to» = none) :
    (∃ stored : Message,
      stored.delivered = false ∧
      (handlePrivateMessage st sid «to» «from» msg ts).2 =
        [Output.messageSent sid «to» msg ts "stored" stored.id] ∧
      getConversationMessages (handlePrivateMessage st sid «to» «from» msg ts).1 «from» «to» =
        getConversationMessages st «from» «to» ++ [stored]) ∧
    (∀ (st2 : ServerState) (sid2 : Nat) (auth : Bool) (t : Nat),
      (handleUserJoin st2 sid2 «to» auth t).2 =
        (st2.messageStore.map (fun p =>
          (p.2.filter (fun m => decide (m.«to» = «to» ∧ m.delivered = false))).map
            (Output.privateMessageSocket sid2))).flatten ∧
      ∀ p ∈ (handleUserJoin st2 sid2 «to» auth t).1.messageStore,
        ∀ m ∈ p.2, m.«to» = «to» → m.delivered = true) := by
  constructor
  · refine ⟨(storeMessage st «from» «to» msg ts).2, rfl, ?_, ?_⟩
    · simp only [handlePrivateMessage, hoff]
    · simp only [handlePrivateMessage, hoff]
      exact storeMessage_bucket st «from» «to» msg ts
  · intro st2 sid2 auth t
    refine ⟨rfl, ?_⟩
    intro p hp m hm hmto
    simp only [handleUserJoin, List.mem_map] at hp
    obtain ⟨q, hq, rfl⟩ := hp
    simp only [List.mem_map] at hm
    obtain ⟨m0, hm0, rfl⟩ := hm
    by_cases hc : m0.«to» = «to» ∧ m0.delivered = false
    · simp [hc]
    · rw [if_neg hc] at hmto ⊢
      cases hd : m0.delivered
      · exact absurd ⟨hmto, hd⟩ hc
      · rfl

/-- Witness for C1: `"bob"` is offline in the initial state; `"alice"`
sends from socket 0. -/
theorem C1_offline_store_then_flush_witness :
    mapGet initialState.connectedUsers "bob" = none ∧
    ((∃ stored : Message,
      stored.delivered = false ∧
      (handlePrivateMessage initialState 0 "bob" "alice" "hi" "t1").2 =
        [Output.messageSent 0 "bob" "hi" "t1" "stored" stored.id] ∧
      getConversationMessages (handlePrivateMessage initialState 0 "bob" "alice" "hi" "t1").1
          "alice" "bob" =
        getConversationMessages initialState "alice" "bob" ++ [stored]) ∧
    (∀ (st2 : ServerState) (sid2 : Nat) (auth : Bool) (t : Nat),
      (handleUserJoin st2 sid2 "bob" auth t).2 =
        (st2.messageStore.map (fun p =>
          (p.2.filter (fun m => decide (m.«to» = "bob" ∧ m.delivered = false))).map
            (Output.privateMessageSocket sid2))).flatten ∧
      ∀ p ∈ (handleUserJoin st2 sid2 "bob" auth t).1.messageStore,
        ∀ m ∈ p.2, m.«to» = "bob" → m.delivered = true)) :=
  ⟨rfl, C1_offline_store_then_flush initialState 0 "bob" "alice" "hi" "t1" rfl⟩

/-- A successful `find?` splits its list at the first match. -/
theorem find?_split {α : Type u} (p : α → Bool) :
    ∀ {l : List α} {a : α}, l.find? p = some a →
      ∃ pre post, l = pre ++ a :: post ∧ ∀ x ∈ pre, ¬ p x = true
  | [], a, h => by simp at h
  | x :: l, a, h => by
    rw [List.find?_cons] at h
    cases hpx : p x with
    | true =>
      rw [hpx] at h
      obtain rfl := Option.some.inj h
      exact ⟨[], l, rfl, by simp⟩
    | false =>
      rw [hpx] at h
      obtain ⟨pre, post, rfl, hpre⟩ := find?_split p h
      refine ⟨x :: pre, post, rfl, ?_⟩
      intro y hy
      rcases List.mem_cons.mp hy with rfl | hy
      · simp [hpx]
      · exact hpre y hy

/-- The helper `markReadFirst` flips the `read` flag of exactly the first entry whose
id matches. -/
theorem markReadFirst_append (mid : String) :
    ∀ (pre : List Message) (msg : Message) (post : List Message),
      (∀ x ∈ pre, ¬ x.id = mid) → msg.id = mid →
      markReadFirst (pre ++ msg :: post) mid = pre ++ { msg with read := true } :: post
  | [], msg, post, _, hmsg => by simp [markReadFirst, hmsg]
  | a :: pre, msg, post, hpre, hmsg => by
    have ha : ¬ a.id = mid := hpre a (List.mem_cons_self a pre)
    show markReadFirst (a :: (pre ++ msg :: post)) mid = _
    simp only [markReadFirst, if_neg ha]
    rw [markReadFirst_append mid pre msg post
      (fun x hx => hpre x (List.mem_cons_of_mem a hx)) hmsg]
    rfl

/-- C5: a `message_read` event for a stored message flips exactly that
message's `read` flag and emits a read receipt `(messageId, readBy,
readAt)` to the original sender's socket iff the sender is registered; an
unknown conversation key or message id silently does nothing. -/
theorem C5_mark_read_receipt (st : ServerState) (sid : Nat) (mid cid : String) (now : Nat) :
    ((mapGet st.messageStore cid).bind
        (fun ms => ms.find? (fun m => decide (m.id = mid))) = none →
      handleMessageRead st sid mid cid now = (st, [])) ∧
    (∀ msg : Message,
      (mapGet st.messageStore cid).bind
          (fun ms => ms.find? (fun m => decide (m.id = mid))) = some msg →
      ((handleMessageRead st sid mid cid now).1.connectedUsers = st.connectedUsers ∧
       (handleMessageRead st sid mid cid now).1.userSockets = st.userSockets) ∧
      (∃ pre post,
        mapGet st.messageStore cid = some (pre ++ msg :: post) ∧
        (∀ x ∈ pre, ¬ x.id = mid) ∧ msg.id = mid ∧
        mapGet (handleMessageRead st sid mid cid now).1.messageStore cid =
          some (pre ++ { msg with read := true } :: post)) ∧
      ((∀ s : UserInfo, mapGet st.connectedUsers msg.«from» = some s →
          (handleMessageRead st sid mid cid now).2 =
            [Output.messageReadReceipt s.socketId mid msg.«to» now]) ∧
       (mapGet st.connectedUsers msg.«from» = none →
          (handleMessageRead st sid mid cid now).2 = []))) := by
  constructor
  · intro h
    cases hget : mapGet st.messageStore cid with
    | none =>
      unfold handleMessageRead
      simp only [hget]
    | some ms =>
      rw [hget] at h
      simp only [Option.some_bind] at h
      unfold handleMessageRead
      simp only [hget, h]
  · intro msg hfind
    cases hget : mapGet st.messageStore cid with
    | none =>
      rw [hget] at hfind
      simp at hfind
    | some ms =>
      rw [hget] at hfind
      simp only [Option.some_bind] at hfind
      have hmsgid : msg.id = mid := by
        have := List.find?_some hfind
        simpa using this
      obtain ⟨pre, post, rfl, hpre0⟩ := find?_split _ hfind
      have hpre : ∀ x ∈ pre, ¬ x.id = mid := by
        intro x hx
        have := hpre0 x hx
        simpa using this
      refine ⟨?_, ⟨pre, post, rfl, hpre, hmsgid, ?_⟩, ?_, ?_⟩
      · unfold handleMessageRead
        simp only [hget, hfind]
        cases hs : mapGet st.connectedUsers msg.«from» <;> simp [hs]
      · unfold handleMessageRead
        simp only [hget, hfind]
        cases hs : mapGet st.connectedUsers msg.«from» <;>
          · simp only [hs]
            show mapGet (mapModify _ _ _) _ = _
            rw [mapGet_mapModify_self, hget]
            simp [markReadFirst_append mid pre msg post hpre hmsgid]
      · intro s hs
        unfold handleMessageRead
        simp only [hget, hfind, hs]
      · intro hs
        unfold handleMessageRead
        simp only [hget, hfind, hs]

/-- Witness for C5 on `readState`: the receipt goes to the sender's socket
with `readBy = "b"`, and an unknown message id does nothing. -/
theorem C5_mark_read_receipt_witness :
    (handleMessageRead readState 55 "msg_0" "a_b" 9).2 =
      [Output.messageReadReceipt 0 "msg_0" "b" 9] ∧
    handleMessageRead readState 55 "nope" "a_b" 9 = (readState, []) := by
  have h1 := ((C5_mark_read_receipt readState 55 "msg_0" "a_b" 9).2
    ⟨"msg_0", "a", "b", "hi", "t1", false, false⟩ (by decide)).2.2.1
    ⟨0, false, 0⟩ (by decide)
  have h2 := (C5_mark_read_receipt readState 55 "nope" "a_b" 9).1 (by decide)
  exact ⟨h1, h2⟩

/-- C10: the effect of `message_read` depends only on its payload, not on
which session sent it, and every emitted receipt names the stored
message's `to` field as `readBy`. -/
theorem C10_read_caller_independent (st : ServerState) (sid1 sid2 : Nat)
    (mid cid : String) (now : Nat) :
    handleMessageRead st sid1 mid cid now = handleMessageRead st sid2 mid cid now ∧
    ∀ o ∈ (handleMessageRead st sid1 mid cid now).2,
      ∃ (msg : Message) (s : UserInfo),
        (mapGet st.messageStore cid).bind
            (fun ms => ms.find? (fun m => decide (m.id = mid))) = some msg ∧
        mapGet st.connectedUsers msg.«from» = some s ∧
        o = Output.messageReadReceipt s.socketId mid msg.«to» now := by
  refine ⟨rfl, ?_⟩
  intro o ho
  unfold handleMessageRead at ho
  cases hget : mapGet st.messageStore cid with
  | none => simp [hget] at ho
  | some ms =>
    cases hf : ms.find? (fun m => decide (m.id = mid)) with
    | none => simp [hget, hf] at ho
    | some msg =>
      cases hs : mapGet st.connectedUsers msg.«from» with
      | none => simp [hget, hf, hs] at ho
      | some s =>
        simp [hget, hf, hs] at ho
        refine ⟨msg, s, ?_, hs, ho⟩
        simpa using hf

/-- Witness for C10 on `readState`: sockets 55 and 77 (neither of them the
recipient, neither registered) trigger the identical effect, and the
receipt's `readBy` is the stored message's `to`. -/
theorem C10_read_caller_independent_witness :
    handleMessageRead readState 55 "msg_0" "a_b" 9 =
      handleMessageRead readState 77 "msg_0" "a_b" 9 ∧
    ∃ (msg : Message) (s : UserInfo),
      (mapGet readState.messageStore "a_b").bind
          (fun ms => ms.find? (fun m => decide (m.id = "msg_0"))) = some msg ∧
      mapGet readState.connectedUsers msg.«from» = some s ∧
      Output.messageReadReceipt 0 "msg_0" "b" 9 =
        Output.messageReadReceipt s.socketId "msg_0" msg.«to» 9 := by
  have h := C10_read_caller_independent readState 55 77 "msg_0" "a_b" 9
  exact ⟨h.1, h.2 (Output.messageReadReceipt 0 "msg_0" "b" 9) (by decide)⟩

/-! ## History refinement (C6) -/

/-- Marking a message read does not change the send-view of a bucket. -/
theorem sendView_markReadFirst (mid : String) :
    ∀ ms : List Message, (markReadFirst ms mid).map sendView = ms.map sendView
  | [] => rfl
  | m :: ms => by
    by_cases h : m.id = mid
    · simp [markReadFirst, h, sendView]
    · simp [markReadFirst, h, sendView_markReadFirst mid ms]

/-- The backlog flush does not change the send-view of a bucket. -/
theorem sendView_flush (u : String) (ms : List Message) :
    (ms.map (fun m =>
      if m.«to» = u ∧ m.delivered = false then { m with delivered := true } else m)).map
        sendView = ms.map sendView := by
  rw [List.map_map]
  apply List.map_congr_left
  intro m _
  by_cases h : m.«to» = u ∧ m.delivered = false <;> simp [h, sendView, Function.comp]

/-- Live delivery does not change the send-view of a bucket. -/
theorem sendView_setLastDelivered :
    ∀ ms : List Message, (setLastDelivered ms).map sendView = ms.map sendView
  | [] => rfl
  | [m] => by simp [setLastDelivered, sendView]
  | m :: m2 :: ms => by
    show sendView m :: (setLastDelivered (m2 :: ms)).map sendView = _
    rw [sendView_setLastDelivered (m2 :: ms)]
    rfl

/-- One step appends to the send-view of a conversation exactly the send
request addressed to it (if the event is one), and otherwise leaves the
send-view unchanged. -/
theorem step_bucket (st : ServerState) (e : Event) (A B : String) :
    (getConversationMessages (step st e).1 A B).map sendView =
      (getConversationMessages st A B).map sendView ++
        (match e with
         | .privateMessage _ t1 f1 msg ts =>
             if getConversationId f1 t1 = getConversationId A B then [(f1, t1, msg, ts)]
             else []
         | _ => []) := by
  cases e with
  | userJoin sid u auth t =>
    simp only [step, handleUserJoin, getConversationMessages]
    rw [mapGet_mapValues]
    cases hx : mapGet st.messageStore (getConversationId A B) with
    | none => simp
    | some ms =>
      show List.map sendView (List.map _ ms) = _
      rw [List.map_map]
      simp only [List.append_nil]
      apply List.map_congr_left
      intro m _
      by_cases h : m.«to» = u ∧ m.delivered = false <;> simp [h, sendView, Function.comp]
  | privateMessage sid t1 f1 msg ts =>
    simp only [step, handlePrivateMessage]
    by_cases hk : getConversationId f1 t1 = getConversationId A B
    · cases hx : mapGet st.connectedUsers t1 with
      | none =>
        simp only [hx, getConversationMessages]
        rw [← hk, storeMessage_bucket_get]
        simp [getConversationMessages, sendView, storeMessage, hk]
      | some info =>
        simp only [hx, getConversationMessages]
        rw [← hk]
        show ((mapGet (mapModify _ _ _) _).getD []).map sendView = _
        rw [mapGet_mapModify_self, storeMessage_bucket_get]
        simp [getConversationMessages, setLastDelivered_append, sendView, storeMessage, hk]
    · have hne : getConversationId A B ≠ getConversationId f1 t1 := fun hcon => hk hcon.symm
      cases hx : mapGet st.connectedUsers t1 with
      | none =>
        simp only [hx, getConversationMessages]
        rw [storeMessage_bucket_ne st f1 t1 msg ts _ hne]
        simp [hk]
      | some info =>
        simp only [hx, getConversationMessages]
        show ((mapGet (mapModify _ _ _) _).getD []).map sendView = _
        rw [mapGet_mapModify_ne _ _ hne, storeMessage_bucket_ne st f1 t1 msg ts _ hne]
        simp [hk]
  | messageRead sid mid cid now =>
    simp only [step, handleMessageRead]
    cases hget : mapGet st.messageStore cid with
    | none => simp
    | some ms =>
      cases hf : ms.find? (fun m => decide (m.id = mid)) with
      | none => simp [hf]
      | some msg =>
        cases hs : mapGet st.connectedUsers msg.«from» <;>
        · simp only [hf, hs, getConversationMessages]
          by_cases hcid : getConversationId A B = cid
          · rw [hcid, mapGet_mapModify_self, hget]
            simp [sendView_markReadFirst]
          · rw [mapGet_mapModify_ne _ _ hcid]
            simp
  | typingStart t1 f1 =>
    simp only [step, handleTypingStart]
    cases hx : mapGet st.connectedUsers t1 <;> simp
  | typingStop t1 f1 =>
    simp only [step, handleTypingStop]
    cases hx : mapGet st.connectedUsers t1 <;> simp
  | getConversation sid w =>
    simp only [step, handleGetConversation]
    cases hx : mapGet st.userSockets sid <;> simp
  | disconnect sid =>
    simp only [step, handleDisconnect]
    cases hx : mapGet st.userSockets sid <;> simp [getConversationMessages]

/-- The trace view `sendsFor` unfolded one event at a time. -/
theorem sendsFor_cons (A B : String) (e : Event) (es : List Event) :
    sendsFor A B (e :: es) =
      (match e with
       | .privateMessage _ t1 f1 msg ts =>
           if getConversationId f1 t1 = getConversationId A B then [(f1, t1, msg, ts)]
           else []
       | _ => []) ++ sendsFor A B es := by
  cases e with
  | userJoin sid u auth t => simp [sendsFor]
  | privateMessage sid t1 f1 msg ts =>
    by_cases h : getConversationId f1 t1 = getConversationId A B <;> simp [sendsFor, h]
  | messageRead sid mid cid now => simp [sendsFor]
  | typingStart t1 f1 => simp [sendsFor]
  | typingStop t1 f1 => simp [sendsFor]
  | getConversation sid w => simp [sendsFor]
  | disconnect sid => simp [sendsFor]

/-- Along any run, a conversation's send-view grows by exactly the send
requests addressed to it, in arrival order. -/
theorem runState_bucket :
    ∀ (es : List Event) (st : ServerState) (A B : String),
      (getConversationMessages (runState st es) A B).map sendView =
        (getConversationMessages st A B).map sendView ++ sendsFor A B es
  | [], st, A, B => by simp [runState, sendsFor]
  | e :: es, st, A, B => by
    rw [runState, List.foldl_cons]
    rw [show List.foldl (fun s e => (step s e).1) (step st e).1 es =
      runState (step st e).1 es from rfl]
    rw [runState_bucket es (step st e).1 A B, step_bucket, sendsFor_cons,
      List.append_assoc]

/-- C6: for all usernames A, B and any event interleaving, the history of
the pair (A, B) lists, in exact arrival order, the send requests addressed
to that pair's bucket — independently of delivery outcome — and is empty
when no sends exist. -/
theorem C6_history_insertion_order (A B : String) (es : List Event) :
    getConversationMessages initialState A B = [] ∧
    (getConversationMessages (runState initialState es) A B).map sendView =
      sendsFor A B es := by
  refine ⟨rfl, ?_⟩
  have h := runState_bucket es initialState A B
  rw [show getConversationMessages initialState A B = [] from rfl] at h
  simpa using h

end Fellowship
